import Mathlib

/-!
# Verification of the Valorant game-analyzer batch tool

Shallow embedding of `src/main.py`: a line-based record parser with
special-key derivation (`Parser.parse`, `Parser.parse_line`,
`Parser.parse_value`, `Parser.parse_special_key`,
`Parser.calculate_additional_metrics`), the tiered interpolated scorer
(`calculate_interpolated_bonus`, `calculate_score`), and the append-only
result store and orchestrator (`load_existing_results`, `main`).

Modelling conventions:
* Python numbers (ints and floats) are modelled as exact rationals `ℚ`;
  all inputs appearing in the theorems below are exactly representable as
  binary doubles, so the idealised arithmetic agrees with the source there.
* Python `float(...)` / `int(...)` string parsing is modelled for finite
  decimal literals (optional sign, digits, decimal point, exponent); the
  special spellings `inf` / `nan` and digit-group underscores are outside
  the model.
* The filesystem is modelled explicitly: a file is its list of lines
  (newline-stripped, as produced by iterating a text file), the output
  CSV is a list of rows / lines, and opening in append mode is `++`.
* Exceptions are modelled with `Except String`; the string names the
  Python exception class raised by the source.
-/

deriving instance DecidableEq for Except

attribute [local semireducible] Rat.add Rat.sub Rat.mul Rat.inv

namespace ValorantAnalyzer

/-- A parsed record value: Python's `bool` / number / `str` union produced by
`Parser.parse_value` (numbers idealised as `ℚ`). -/
inductive Value where
  | bool : Bool → Value
  | num : ℚ → Value
  | str : String → Value
deriving DecidableEq, Repr

/-- A record: Python dict from field name to value, as an insertion-ordered
association list with unique keys (the shape `dict` preserves). -/
abbrev Data := List (String × Value)

/-- Dict lookup `d[k]` / `d.get(k)`: first (unique) binding for `k`. -/
def lookupKey : Data → String → Option Value
  | [], _ => none
  | p :: d, k => if p.1 = k then some p.2 else lookupKey d k

/-- Dict assignment `d[k] = v`: overwrite in place if `k` is bound, else
append at the end (Python dicts preserve insertion order). -/
def setKey (d : Data) (k : String) (v : Value) : Data :=
  if d.any (fun p => p.1 = k) then d.map (fun p => if p.1 = k then (k, v) else p)
  else d ++ [(k, v)]

/-- The guarded assignment `if key not in self.data: self.data[key] = value`
of `Parser.parse` (line 16-17). -/
def addIfAbsent (d : Data) (k : String) (v : Value) : Data :=
  if (lookupKey d k).isSome then d else d ++ [(k, v)]

/-- ASCII whitespace as stripped by Python's `str.strip()`. -/
def isSpace (c : Char) : Bool := c = ' ' ∨ c = '\t' ∨ c = '\n' ∨ c = '\r'

/-- Drop leading and trailing whitespace from a character list. -/
def trimChars (cs : List Char) : List Char :=
  ((cs.dropWhile isSpace).reverse.dropWhile isSpace).reverse

/-- Python `str.strip()` on the whitespace relevant here. -/
def pyStrip (s : String) : String := ⟨trimChars s.data⟩

/-- ASCII lowercasing, as Python's `str.lower()` on the ASCII inputs here. -/
def lowerChar (c : Char) : Char :=
  if 'A' ≤ c ∧ c ≤ 'Z' then Char.ofNat (c.toNat + 32) else c

/-- Python `str.lower()`. -/
def lowerStr (s : String) : String := ⟨s.data.map lowerChar⟩

/-- Numeric value of a digit string (most significant first). -/
def digitsVal (ds : List Char) : ℕ :=
  ds.foldl (fun n c => 10 * n + (c.toNat - 48)) 0

/-- Python `float(s)` on finite decimal literals: strip whitespace, optional
sign, digits with optional decimal point (at least one digit), optional
exponent. Returns the exact rational value, `none` where `float` raises
`ValueError`. -/
def pyFloat (s : String) : Option ℚ :=
  let cs := (pyStrip s).data
  let (sgn, cs) : ℚ × List Char :=
    match cs with
    | '+' :: r => (1, r)
    | '-' :: r => (-1, r)
    | r => (1, r)
  let ip := cs.takeWhile Char.isDigit
  let cs := cs.dropWhile Char.isDigit
  let (fp, cs) : List Char × List Char :=
    match cs with
    | '.' :: r => (r.takeWhile Char.isDigit, r.dropWhile Char.isDigit)
    | r => ([], r)
  if ip.isEmpty ∧ fp.isEmpty then none
  else
    let mant : ℚ := (digitsVal ip : ℚ) + (digitsVal fp : ℚ) / (10 ^ fp.length)
    match cs with
    | [] => some (sgn * mant)
    | 'e' :: r | 'E' :: r =>
      let (epos, r) : Bool × List Char :=
        match r with
        | '+' :: r2 => (true, r2)
        | '-' :: r2 => (false, r2)
        | r2 => (true, r2)
      let ed := r.takeWhile Char.isDigit
      let rest := r.dropWhile Char.isDigit
      if ed.isEmpty ∨ ¬ rest.isEmpty then none
      else some (sgn * (if epos then mant * 10 ^ digitsVal ed else mant / 10 ^ digitsVal ed))
    | _ => none

/-- Python `int(s)`: strip whitespace, optional sign, decimal digits only.
`none` where `int` raises `ValueError`. -/
def pyIntStr (s : String) : Option ℤ :=
  let cs := (pyStrip s).data
  let (sgn, ds) : ℤ × List Char :=
    match cs with
    | '+' :: r => (1, r)
    | '-' :: r => (-1, r)
    | r => (1, r)
  if ¬ ds.isEmpty ∧ ds.all Char.isDigit then some (sgn * (digitsVal ds : ℤ)) else none

/-- Python `int(q)` truncates a number toward zero (`Int.tdiv` is
truncating division and the denominator is positive). -/
def truncQ (q : ℚ) : ℤ := Int.tdiv q.num (q.den : ℤ)

/-- `⌊q⌋` computed structurally (`Int.fdiv` is floor division). -/
def ratFloor (q : ℚ) : ℤ := Int.fdiv q.num (q.den : ℤ)

namespace Parser

/-- `Parser.parse_value` (main.py 28-34): `true`/`false` case-insensitively
become booleans, else try `float`, else keep the string. -/
def parse_value (v : String) : Value :=
  if lowerStr v = "true" ∨ lowerStr v = "false" then .bool (lowerStr v = "true")
  else
    match pyFloat v with
    | some q => .num q
    | none => .str v

/-- The regex `^([^:]+): (.+)$` of `Parser.parse_line` on a newline-stripped
line: a nonempty colon-free key, the literal `: `, a nonempty value. -/
def matchKV (line : String) : Option (String × String) :=
  let cs := line.data
  let key := cs.takeWhile (fun c => c ≠ ':')
  match cs.dropWhile (fun c => c ≠ ':') with
  | ':' :: ' ' :: v => if key.isEmpty ∨ v.isEmpty then none else some (⟨key⟩, ⟨v⟩)
  | _ => none

/-- `Parser.parse_line` (main.py 21-26): on a regex match, the stripped key and
the typed stripped value; `none` (Python `(None, None)`) otherwise. -/
def parse_line (line : String) : Option (String × Value) :=
  (matchKV line).map (fun p => (pyStrip p.1, parse_value (pyStrip p.2)))

/-- The regex fragment `\((\d+(?:\.\d+)?)%\)` matched at a position just after
an opening parenthesis: digits, optional `.digits`, then `%)`. Returns the
exact value of the captured decimal number. -/
def matchPctAfterParen (cs : List Char) : Option ℚ :=
  let ds := cs.takeWhile Char.isDigit
  if ds.isEmpty then none
  else
    match cs.dropWhile Char.isDigit with
    | '%' :: ')' :: _ => some (digitsVal ds : ℚ)
    | '.' :: r =>
      let fs := r.takeWhile Char.isDigit
      if fs.isEmpty then none
      else
        match r.dropWhile Char.isDigit with
        | '%' :: ')' :: _ => some ((digitsVal ds : ℚ) + (digitsVal fs : ℚ) / (10 ^ fs.length))
        | _ => none
    | _ => none

/-- `re.search(r"\((\d+(?:\.\d+)?)%\)", s)`: leftmost match anywhere in the
string, as Python's `float` of the captured group. -/
def searchPct : List Char → Option ℚ
  | [] => none
  | c :: rest =>
    if c = '(' then
      match matchPctAfterParen rest with
      | some q => some q
      | none => searchPct rest
    else searchPct rest

/-- Python `s.split('-')`: split at every dash, keeping empty parts. -/
def splitDash : List Char → List (List Char)
  | [] => [[]]
  | '-' :: rest => [] :: splitDash rest
  | c :: rest =>
    match splitDash rest with
    | [] => [[c]]
    | p :: ps => (c :: p) :: ps

/-- `value.split('-')` then `int(home) - int(away)` for the `Score` special
key (main.py 40-41); `none` where unpacking or `int` raises. -/
def roundDiff (s : String) : Option ℤ :=
  match splitDash s.data with
  | [h, a] =>
    match pyIntStr ⟨h⟩, pyIntStr ⟨a⟩ with
    | some hi, some ai => some (hi - ai)
    | _, _ => none
  | _ => none

/-- `Parser.parse_special_key` (main.py 36-41). `Headshot`: `re.search` needs a
string operand (`TypeError` otherwise) and a match (`AttributeError` on
`None.group`); on success overwrite `Headshot %`. `Score`: `.split` needs a
string (`AttributeError`), two `int`-parsable parts (`ValueError`); on success
overwrite `Round Differential`. Other keys: no effect. -/
def parse_special_key (d : Data) (key : String) (value : Value) : Except String Data :=
  if key = "Headshot" then
    match value with
    | .str s =>
      match searchPct s.data with
      | some q => .ok (setKey d "Headshot %" (.num q))
      | none => .error "AttributeError"
    | _ => .error "TypeError"
  else if key = "Score" then
    match value with
    | .str s =>
      match roundDiff s with
      | some diff => .ok (setKey d "Round Differential" (.num (diff : ℚ)))
      | _ => .error "ValueError"
    | _ => .error "AttributeError"
  else .ok d

/-- One iteration of the line loop of `Parser.parse` (main.py 12-17): parse the
line; on a truthy key run the special-key derivation, then store the raw key
only if absent. -/
def stepParse (d : Data) (line : String) : Except String Data :=
  match parse_line line with
  | some (k, v) =>
    if k = "" then .ok d
    else do
      let d' ← parse_special_key d k v
      pure (addIfAbsent d' k v)
  | none => .ok d

/-- The full line loop of `Parser.parse` over the file's lines. -/
def parseLines (lines : List String) : Except String Data :=
  lines.foldlM stepParse []

/-- Python `float(x)` applied to an already-typed value (booleans coerce to
`1`/`0`, strings are parsed, `none` = `ValueError`/`TypeError`). -/
def pyFloatOfValue : Value → Option ℚ
  | .bool b => some (if b then 1 else 0)
  | .num q => some q
  | .str s => pyFloat s

/-- Python `int(x)` applied to an already-typed value. -/
def pyIntOfValue : Value → Option ℤ
  | .bool b => some (if b then 1 else 0)
  | .num q => some (truncQ q)
  | .str s => pyIntStr s

/-- Python `x != 0` on a typed value: `False == 0` and `True == 1`; strings
compare unequal to `0` without error. -/
def valueNeZero : Value → Bool
  | .bool b => b
  | .num q => decide (q ≠ 0)
  | .str _ => true

/-- A typed value as a number for arithmetic operators: numbers and booleans
only (no implicit string conversion). -/
def asNum : Value → Option ℚ
  | .bool b => some (if b then 1 else 0)
  | .num q => some q
  | .str _ => none

/-- Python `x / y` on typed values: numbers and booleans divide (`none` for a
zero divisor = `ZeroDivisionError`); a string operand is a `TypeError`. -/
def pyDiv (a b : Value) : Option ℚ :=
  match asNum a, asNum b with
  | some x, some y => if y = 0 then none else some (x / y)
  | _, _ => none

/-- First statement of `Parser.calculate_additional_metrics` (main.py 44-45):
`Length` = `int(end) - int(start)` when both time fields are present. -/
def addLength (d : Data) : Except String Data :=
  match lookupKey d "Start Time (UNIX)", lookupKey d "End Time (UNIX)" with
  | some s, some e =>
    match pyIntOfValue e, pyIntOfValue s with
    | some ei, some si => .ok (setKey d "Length" (.num ((ei - si : ℤ) : ℚ)))
    | _, _ => .error "ValueError"
  | _, _ => .ok d

/-- Second statement of `Parser.calculate_additional_metrics` (main.py 46-47):
`Damage Ratio` = made / received when both damage fields are present and the
received value compares unequal to `0`. -/
def addDamageRatio (d : Data) : Except String Data :=
  match lookupKey d "Damage Made", lookupKey d "Damage Received" with
  | some m, some r =>
    if valueNeZero r then
      match pyDiv m r with
      | some q => .ok (setKey d "Damage Ratio" (.num q))
      | none => .error "TypeError"
    else .ok d
  | _, _ => .ok d

/-- `Parser.calculate_additional_metrics` (main.py 43-47). -/
def calculate_additional_metrics (d : Data) : Except String Data := do
  let d ← addLength d
  addDamageRatio d

/-- `Parser.parse` (main.py 10-19): run the line loop over the file's lines,
then the additional-metrics pass, and return the mapping. -/
def parse (lines : List String) : Except String Data := do
  let d ← parseLines lines
  calculate_additional_metrics d

/-- The typed value a single line would store for key `k`: the line matches
the `<key>: <value>` pattern, its stripped key is `k`, and `k` is truthy. -/
def lineVal (k : String) (l : String) : Option Value :=
  match parse_line l with
  | some kv => if kv.1 = k ∧ kv.1 ≠ "" then some kv.2 else none
  | none => none

/-- The typed value of the first line in the file that matches the
`<key>: <value>` pattern with (truthy) key `k`. -/
def firstVal (k : String) : List String → Option Value
  | [] => none
  | l :: rest =>
    match lineVal k l with
    | some v => some v
    | none => firstVal k rest

end Parser

/-- Whether a typed value is a number. -/
def isNumVal : Value → Bool
  | .num _ => true
  | _ => false

/-- One `(target, bonus)` tier. -/
abbrev Tier := ℚ × ℚ

/-- `calculate_interpolated_bonus` (main.py 59-60). -/
def calculate_interpolated_bonus (value lower_bound upper_bound lower_bonus upper_bonus : ℚ) : ℚ :=
  if lower_bound = upper_bound then lower_bonus
  else lower_bonus + (upper_bonus - lower_bonus) * ((value - lower_bound) / (upper_bound - lower_bound))

/-- A breakdown entry. The source renders these as strings
(`f"{metric}: {value}, Bonus: {bonus:.2f})"` resp.
`f"{metric}: {value} (Tier: {metric}:{target}:{bonus}, Bonus: {bonus})"`);
the structured form keeps the same information content, abstracting the
decimal rendering of floats. -/
inductive BreakdownEntry where
  | interp : (metric : String) → (value bonus : ℚ) → BreakdownEntry
  | flat : (metric : String) → (value target bonus : ℚ) → BreakdownEntry
deriving DecidableEq, Repr

/-- The inner tier scan of `calculate_score` (main.py 70-84), mirroring the
indexed `for`/`break` structure: `isFirst` tracks `i == 0`. At a tier the
value reaches: flat bonus if it is the last tier, interpolate if the value is
strictly below the next target, otherwise fall through to the next tier. A
value below the first tier's target stops the scan with nothing. -/
def tierLoop (metric : String) (v : ℚ) (isFirst : Bool) : List Tier → ℚ × List BreakdownEntry
  | [] => (0, [])
  | (target, bonus) :: rest =>
    if v ≥ target then
      match rest with
      | [] => (bonus, [.flat metric v target bonus])
      | (next_target, next_bonus) :: _ =>
        if v < next_target then
          let ib := calculate_interpolated_bonus v target next_target bonus next_bonus
          (ib, [.interp metric v ib])
        else tierLoop metric v false rest
    else if isFirst then (0, [])
    else tierLoop metric v false rest

/-- Stable insertion into a list sorted ascending by target: the new tier goes
after every tier with an equal or smaller target. -/
def insertTier (p : Tier) : List Tier → List Tier
  | [] => [p]
  | q :: rest => if p.1 < q.1 then p :: q :: rest else q :: insertTier p rest

/-- `sorted(tiers, key=lambda x: x[0])`: stable sort ascending by target
(Python's `sorted` is stable; a stable ascending sort is unique, so insertion
sort computes the same list). -/
def sortTiers (tiers : List Tier) : List Tier :=
  tiers.foldl (fun acc p => insertTier p acc) []

/-- The per-metric body of `calculate_score` (main.py 66-84):
`float(data.get(metric, 0))` then the scan over the sorted tiers. -/
def scoreMetric (d : Data) (metric : String) (tiers : List Tier) :
    Except String (ℚ × List BreakdownEntry) :=
  match Parser.pyFloatOfValue ((lookupKey d metric).getD (.num 0)) with
  | some v => .ok (tierLoop metric v true (sortTiers tiers))
  | none => .error "ValueError"

/-- Round-half-to-even of a rational to an integer (Python's `round`). -/
def roundHalfEven (q : ℚ) : ℤ :=
  let f := ratFloor q
  if q - (f : ℚ) < 1 / 2 then f
  else if 1 / 2 < q - (f : ℚ) then f + 1
  else if f % 2 = 0 then f else f + 1

/-- `round(score, 2)` (idealised over exact rationals). -/
def round2 (q : ℚ) : ℚ := (roundHalfEven (q * 100) : ℚ) / 100

/-- One step of the metric loop: add the metric's bonus to the running score
and append its breakdown entries. -/
def scoreStep (d : Data) (acc : ℚ × List BreakdownEntry) (mt : String × List Tier) :
    Except String (ℚ × List BreakdownEntry) := do
  let s ← scoreMetric d mt.1 mt.2
  pure (acc.1 + s.1, acc.2 ++ s.2)

/-- `calculate_score` (main.py 62-86): fold the per-metric scan over the
weight table in order, summing bonuses and concatenating breakdown entries,
and round the total to two decimals. -/
def calculate_score (d : Data) (weights : List (String × List Tier)) :
    Except String (ℚ × List BreakdownEntry) := do
  let r ← weights.foldlM (scoreStep d) ((0 : ℚ), ([] : List BreakdownEntry))
  pure (round2 r.1, r.2)

/-- The persistent output table: one entry per CSV data row, keyed by the
row's `Filename` column (the key under which `load_existing_results` indexes
the row when it is read back), paired with the row's record. -/
abbrev OutTable := List (String × Data)

/-- The skip-set: `set(load_existing_results(...).keys())` (main.py 88-95,
106-107) — every `Filename` present in the output table. -/
def skipSet (t : OutTable) : List String := t.map Prod.fst

/-- `filename.endswith(".md")` (main.py 112). -/
def hasMdExt (f : String) : Bool := (".md" : String).data.isSuffixOf f.data

/-- The file-level append of `main` (main.py 130-139): the output file (as
lines) is opened in append mode only when there are new results; a header
line is written first exactly when the skip-set is empty, then the new rows. -/
def appendToCsv (fileLines : List String) (processedFiles : List String)
    (headerLine : String) (rowLines : List String) : List String :=
  if rowLines.isEmpty then fileLines
  else fileLines ++ (if processedFiles.isEmpty then [headerLine] else []) ++ rowLines

/-- A result row as it reaches the CSV layer: field names mapped to rendered
cell strings, in dict insertion order. (In the source the row is the parsed
record plus `Score` and `Log`; the csv module renders each value with `str`,
which is the identity on the string values — in particular on `Filename` —
so the orchestrator theorems quantify over the row contents.) -/
abbrev CsvRow := List (String × String)

/-- The output CSV file as raw rows of cells; the first row is the header
when one has been written. Cell quoting is transparent: the csv module
round-trips each cell string intact. -/
abbrev CsvFile := List (List String)

/-- Cell-map lookup, as `lookupKey` but for rendered rows. -/
def lookupCell : CsvRow → String → Option String
  | [], _ => none
  | p :: d, k => if p.1 = k then some p.2 else lookupCell d k

/-- Cell-map dict assignment `d[k] = v`, as `setKey` but for rendered rows. -/
def setCell (d : CsvRow) (k : String) (v : String) : CsvRow :=
  if d.any (fun p => p.1 = k) then d.map (fun p => if p.1 = k then (k, v) else p)
  else d ++ [(k, v)]

/-- The dict `csv.DictReader` builds for one data row:
`dict(zip(fieldnames, row))` — assignment in order, so a later duplicate
fieldname overwrites an earlier one; cells beyond the header go to the rest
key and header fields beyond the row are unbound (Python binds them to
`None`, which no filename string equals). -/
def readRow (fieldnames : List String) (cells : List String) : CsvRow :=
  (fieldnames.zip cells).foldl (fun d p => setCell d p.1 p.2) []

/-- `csv.DictWriter.writerow` with the default `extrasaction='raise'` and
`restval=''`: a row holding a key outside the fieldnames raises `ValueError`;
otherwise the cells are the row's values in fieldname order, `''` for a
missing field. -/
def writeRow (fieldnames : List String) (row : CsvRow) : Except String (List String) :=
  if row.all (fun p => fieldnames.contains p.1) then
    .ok (fieldnames.map (fun fd => (lookupCell row fd).getD ""))
  else .error "ValueError"

/-- `csv.DictWriter.writerows` (main.py 139): serialize each result row in
order under the one fieldname list. -/
def writeRows (fieldnames : List String) (rows : List CsvRow) :
    Except String (List (List String)) :=
  rows.mapM (writeRow fieldnames)

/-- `load_existing_results` (main.py 88-95) reduced to its keys: the
`Filename` cell of every data row as `DictReader` reads it against the
header. A missing or empty file has no rows; a header without a `Filename`
column raises `KeyError` at the first data row; a row too short for the
`Filename` column yields Python `None` (here `none`). -/
def skipKeys : CsvFile → Except String (List (Option String))
  | [] => .ok []
  | header :: rows =>
    if header.contains "Filename" then
      .ok (rows.map (fun cells => lookupCell (readRow header cells) "Filename"))
    else if rows.isEmpty then .ok []
    else .error "KeyError"

/-- One run of `main` (main.py 97-139) at the CSV level: build the skip-set
from the output file, process every listed `.md` file whose name is not in
it (`process` abstracts parse → derive → score → `Log`, yielding the row's
rendered cells), tag each row with its `Filename`, and — when there are new
results — append them serialized under THIS run's first result's fieldnames,
writing a header first exactly when the skip-set was empty. -/
def runMain (process : String → CsvRow) (inputs : List String) (file : CsvFile) :
    Except String CsvFile :=
  match skipKeys file with
  | .error e => .error e
  | .ok processed =>
    let results := (inputs.filter (fun f => hasMdExt f && !(processed.contains (some f)))).map
      (fun f => setCell (process f) "Filename" f)
    if results.isEmpty then .ok file
    else
      match writeRows ((results.headD []).map Prod.fst) results with
      | .error e => .error e
      | .ok rows =>
        .ok (file ++ (if processed.isEmpty then [(results.headD []).map Prod.fst] else []) ++ rows)

/-- A sequence of runs of `main` against the same output file, starting from
no prior results. -/
def multiRunCsv (process : String → CsvRow) (runs : List (List String)) :
    Except String CsvFile :=
  runs.foldlM (fun file ins => runMain process ins file) []

/-- The filenames a sequence of runs processes, in order: per run, the listed
`.md` files not processed before. -/
def processedNames (runs : List (List String)) : List String :=
  runs.foldl (fun acc ins => acc ++ ins.filter (fun g => hasMdExt g && !(acc.contains g))) []

/-- The shape the output file keeps when every appended row carries exactly
the header's field set: empty, or the header `fields` followed by a nonempty
list of data rows whose `Filename` column reads back as exactly the list of
processed names. -/
def uniformFile (fields : List String) (file : CsvFile) (names : List String) : Prop :=
  (file = [] ∧ names = []) ∨
  (∃ rows, file = fields :: rows ∧ rows ≠ [] ∧ names.Nodup ∧
    rows.map (fun cells => lookupCell (readRow fields cells) "Filename") = names.map some)

/-- Two match records with different field sets, as arise from the optional
derived metrics: `a.md` has a `Kills` field, `b.md` instead has `Deaths` and
`Damage Ratio`. -/
def mismatchedProcess (f : String) : CsvRow :=
  if f = "a.md" then [("Kills", "21"), ("Score", "8.0"), ("Log", "Kills: 21")]
  else [("Deaths", "3"), ("Damage Ratio", "2.5"), ("Score", "0"), ("Log", "Deaths: 3")]

/-! ## Association-list lemmas -/

theorem any_key_eq_false_iff (d : Data) (k : String) :
    (d.any (fun p => p.1 = k)) = false ↔ lookupKey d k = none := by
  induction d with
  | nil => simp [lookupKey]
  | cons p d ih => by_cases hp : p.1 = k <;> simp [lookupKey, hp, ih]

theorem lookupKey_append_of_none {d : Data} {k : String} (d' : Data)
    (h : lookupKey d k = none) : lookupKey (d ++ d') k = lookupKey d' k := by
  induction d with
  | nil => simp
  | cons p d ih =>
    by_cases hp : p.1 = k
    · simp [lookupKey, hp] at h
    · simp only [lookupKey, hp, if_false] at h
      simp [lookupKey, hp, ih h]

theorem lookupKey_append_of_some {d : Data} {k : String} {v : Value} (d' : Data)
    (h : lookupKey d k = some v) : lookupKey (d ++ d') k = some v := by
  induction d with
  | nil => simp [lookupKey] at h
  | cons p d ih =>
    by_cases hp : p.1 = k
    · simp only [lookupKey, hp, if_true] at h
      simp [lookupKey, hp, h]
    · simp only [lookupKey, hp, if_false] at h
      simp [lookupKey, hp, ih h]

theorem lookup_map_replace_self (d : Data) (k : String) (v : Value)
    (h : d.any (fun p => p.1 = k) = true) :
    lookupKey (d.map (fun p => if p.1 = k then (k, v) else p)) k = some v := by
  induction d with
  | nil => simp at h
  | cons p d ih =>
    by_cases hp : p.1 = k
    · simp [lookupKey, hp]
    · simp only [List.map_cons, hp, if_false]
      simp only [lookupKey, hp, if_false]
      apply ih
      simpa [hp] using h

theorem lookup_map_replace_ne (d : Data) (k k' : String) (v : Value) (h : k' ≠ k) :
    lookupKey (d.map (fun p => if p.1 = k then (k, v) else p)) k' = lookupKey d k' := by
  induction d with
  | nil => simp [lookupKey]
  | cons p d ih =>
    by_cases hp : p.1 = k
    · simp [lookupKey, hp, Ne.symm h, ih]
    · by_cases hp' : p.1 = k' <;> simp [lookupKey, hp, hp', ih, h, Ne.symm h]

theorem lookupKey_setKey_self (d : Data) (k : String) (v : Value) :
    lookupKey (setKey d k v) k = some v := by
  unfold setKey
  by_cases h : d.any (fun p => p.1 = k)
  · simp [h, lookup_map_replace_self d k v h]
  · have hn : lookupKey d k = none := (any_key_eq_false_iff d k).mp (Bool.eq_false_iff.mpr h)
    simp [h, lookupKey_append_of_none _ hn, lookupKey]

theorem lookupKey_setKey_ne (d : Data) {k k' : String} (v : Value) (h : k' ≠ k) :
    lookupKey (setKey d k v) k' = lookupKey d k' := by
  unfold setKey
  by_cases hany : d.any (fun p => p.1 = k)
  · simp [hany, lookup_map_replace_ne d k k' v h]
  · simp only [hany, Bool.false_eq_true, if_false]
    cases hl : lookupKey d k' with
    | none => simp [lookupKey_append_of_none _ hl, lookupKey, Ne.symm h]
    | some w => simp [lookupKey_append_of_some _ hl]

theorem lookupKey_addIfAbsent_ne (d : Data) {k k' : String} (v : Value) (h : k' ≠ k) :
    lookupKey (addIfAbsent d k v) k' = lookupKey d k' := by
  unfold addIfAbsent
  by_cases hs : (lookupKey d k).isSome
  · simp [hs]
  · simp only [hs, if_false]
    cases hl : lookupKey d k' with
    | none => simp [lookupKey_append_of_none _ hl, lookupKey, Ne.symm h]
    | some w => simp [lookupKey_append_of_some _ hl]

theorem lookupKey_addIfAbsent_absent (d : Data) (k : String) (v : Value)
    (h : lookupKey d k = none) :
    lookupKey (addIfAbsent d k v) k = some v := by
  simp [addIfAbsent, h, lookupKey_append_of_none _ h, lookupKey]

theorem addIfAbsent_present (d : Data) (k : String) (v : Value)
    (h : (lookupKey d k).isSome) : addIfAbsent d k v = d := by
  simp [addIfAbsent, h]

/-! ## Parser step lemmas -/

namespace Parser

theorem parse_special_key_other (d : Data) (k : String) (v : Value)
    (hH : k ≠ "Headshot") (hS : k ≠ "Score") : parse_special_key d k v = .ok d := by
  simp [parse_special_key, hH, hS]

theorem parse_special_key_lookup (d : Data) (k : String) (v : Value) {d' : Data}
    (h : parse_special_key d k v = .ok d') (k' : String)
    (h1 : k' ≠ "Headshot %") (h2 : k' ≠ "Round Differential") :
    lookupKey d' k' = lookupKey d k' := by
  unfold parse_special_key at h
  split at h
  · cases v with
    | str s =>
      cases hs : searchPct s.data with
      | some q =>
        simp only [hs, Except.ok.injEq] at h
        subst h
        exact lookupKey_setKey_ne d _ h1
      | none => simp [hs] at h
    | bool b => simp at h
    | num q => simp at h
  · split at h
    · cases v with
      | str s =>
        cases hs : roundDiff s with
        | some q =>
          simp only [hs, Except.ok.injEq] at h
          subst h
          exact lookupKey_setKey_ne d _ h2
        | none => simp [hs] at h
      | bool b => simp at h
      | num q => simp at h
    · cases h; rfl

theorem parse_special_key_lookup_self (d : Data) (k : String) (v : Value) {d' : Data}
    (h : parse_special_key d k v = .ok d') : lookupKey d' k = lookupKey d k := by
  by_cases hH : k = "Headshot"
  · subst hH; exact parse_special_key_lookup d _ v h _ (by decide) (by decide)
  by_cases hS : k = "Score"
  · subst hS; exact parse_special_key_lookup d _ v h _ (by decide) (by decide)
  · rw [parse_special_key_other d k v hH hS] at h; cases h; rfl

theorem stepParse_skip (d : Data) (line : String) (h : parse_line line = none) :
    stepParse d line = .ok d := by
  simp [stepParse, h]

theorem stepParse_stores_fresh (d : Data) (line k : String) (v : Value) {d₁ : Data}
    (hl : parse_line line = some (k, v)) (hk : k ≠ "") (habs : lookupKey d k = none)
    (h : stepParse d line = .ok d₁) : lookupKey d₁ k = some v := by
  unfold stepParse at h
  rw [hl] at h
  simp only [hk, if_false] at h
  cases hs : parse_special_key d k v with
  | error e => rw [hs] at h; cases h
  | ok d' =>
    rw [hs] at h
    cases h
    have habs' : lookupKey d' k = none := by
      rw [parse_special_key_lookup_self d k v hs]; exact habs
    exact lookupKey_addIfAbsent_absent d' k v habs'

theorem stepParse_lookup (d : Data) (line k' : String)
    (h1 : k' ≠ "Headshot %") (h2 : k' ≠ "Round Differential") {d₁ : Data}
    (h : stepParse d line = .ok d₁) :
    lookupKey d₁ k' =
      match lookupKey d k' with
      | some w => some w
      | none => lineVal k' line := by
  unfold stepParse at h
  cases hl : parse_line line with
  | none =>
    rw [hl] at h
    cases h
    simp only [lineVal, hl]
    cases hx : lookupKey d k' <;> simp [hx]
  | some kv =>
    rw [hl] at h
    by_cases hk : kv.1 = ""
    · rw [show kv = (kv.1, kv.2) from rfl, hk] at h
      simp only [if_pos rfl] at h
      cases h
      simp only [lineVal, hl]
      have : ¬ (kv.1 = k' ∧ kv.1 ≠ "") := by
        rintro ⟨-, hne⟩; exact hne hk
      rw [if_neg this]
      cases hx : lookupKey d k' <;> simp [hx]
    · rw [show kv = (kv.1, kv.2) from rfl] at h
      simp only [hk, if_false] at h
      cases hs : parse_special_key d kv.1 kv.2 with
      | error e => rw [hs] at h; cases h
      | ok d' =>
        rw [hs] at h
        cases h
        have hd' : lookupKey d' k' = lookupKey d k' :=
          parse_special_key_lookup d kv.1 kv.2 hs k' h1 h2
        by_cases hkk : kv.1 = k'
        · subst hkk
          cases hb : lookupKey d kv.1 with
          | some w =>
            rw [addIfAbsent_present d' kv.1 kv.2 (by rw [hd', hb]; rfl)]
            rw [hd', hb]
          | none =>
            rw [lookupKey_addIfAbsent_absent d' kv.1 kv.2 (by rw [hd', hb])]
            simp [lineVal, hl, hk]
        · have := @lookupKey_addIfAbsent_ne d' kv.1 k' kv.2 (Ne.symm hkk)
          rw [this, hd']
          cases hb : lookupKey d k' with
          | some w => rfl
          | none => simp [lineVal, hl, hkk]

theorem parseLinesAux_lookup (k : String)
    (h1 : k ≠ "Headshot %") (h2 : k ≠ "Round Differential") :
    ∀ (lines : List String) (acc d : Data), List.foldlM stepParse acc lines = .ok d →
      lookupKey d k =
        match lookupKey acc k with
        | some w => some w
        | none => firstVal k lines := by
  intro lines
  induction lines with
  | nil =>
    intro acc d h
    simp only [List.foldlM_nil] at h
    cases h
    cases hx : lookupKey acc k <;> simp [hx, firstVal]
  | cons l rest ih =>
    intro acc d h
    rw [List.foldlM_cons] at h
    cases hs : stepParse acc l with
    | error e => rw [hs] at h; cases h
    | ok acc₁ =>
      rw [hs] at h
      have hstep := stepParse_lookup acc l k h1 h2 hs
      have htail := ih acc₁ d h
      rw [hstep] at htail
      cases hb : lookupKey acc k with
      | some w => rw [hb] at htail; simpa using htail
      | none =>
        rw [hb] at htail
        cases hv : lineVal k l with
        | some v => rw [hv] at htail; simp [firstVal, hv, htail]
        | none => rw [hv] at htail; simp [firstVal, hv, htail]

theorem addLength_lookup {d d' : Data} (h : addLength d = .ok d') {k : String}
    (hk : k ≠ "Length") : lookupKey d' k = lookupKey d k := by
  unfold addLength at h
  split at h
  · split at h
    · cases h; exact lookupKey_setKey_ne d _ hk
    · cases h
  · cases h; rfl

theorem addDamageRatio_lookup {d d' : Data} (h : addDamageRatio d = .ok d') {k : String}
    (hk : k ≠ "Damage Ratio") : lookupKey d' k = lookupKey d k := by
  unfold addDamageRatio at h
  split at h
  · split at h
    · split at h
      · cases h; exact lookupKey_setKey_ne d _ hk
      · cases h
    · cases h; rfl
  · cases h; rfl

theorem calc_additional_lookup {d d' : Data} (h : calculate_additional_metrics d = .ok d')
    {k : String} (h3 : k ≠ "Length") (h4 : k ≠ "Damage Ratio") :
    lookupKey d' k = lookupKey d k := by
  unfold calculate_additional_metrics at h
  cases hL : addLength d with
  | error e => rw [hL] at h; cases h
  | ok d₁ =>
    rw [hL] at h
    rw [addDamageRatio_lookup h h4, addLength_lookup hL h3]

theorem parse_lookup (lines : List String) (k : String) {d : Data}
    (h1 : k ≠ "Headshot %") (h2 : k ≠ "Round Differential")
    (h3 : k ≠ "Length") (h4 : k ≠ "Damage Ratio")
    (hp : parse lines = .ok d) : lookupKey d k = firstVal k lines := by
  unfold parse at hp
  cases hP : parseLines lines with
  | error e => rw [hP] at hp; cases hp
  | ok d₀ =>
    rw [hP] at hp
    have := parseLinesAux_lookup k h1 h2 lines [] d₀ hP
    simp only [lookupKey] at this
    rw [calc_additional_lookup hp h3 h4, this]

theorem parse_special_key_headshot (d : Data) (s : String) (q : ℚ)
    (hq : searchPct s.data = some q) :
    parse_special_key d "Headshot" (.str s) = .ok (setKey d "Headshot %" (.num q)) := by
  simp [parse_special_key, hq]

theorem parse_special_key_score (d : Data) (s : String) (q : ℤ)
    (hq : roundDiff s = some q) :
    parse_special_key d "Score" (.str s) =
      .ok (setKey d "Round Differential" (.num (q : ℚ))) := by
  simp [parse_special_key, hq]

theorem stepParse_headshot_derives (d : Data) (line s : String) (q : ℚ)
    (hl : parse_line line = some ("Headshot", .str s)) (hq : searchPct s.data = some q)
    {d₁ : Data} (h : stepParse d line = .ok d₁) :
    lookupKey d₁ "Headshot %" = some (.num q) := by
  unfold stepParse at h
  simp only [hl] at h
  rw [if_neg (by decide : ¬ ("Headshot" : String) = "")] at h
  rw [parse_special_key_headshot d s q hq] at h
  cases h
  rw [lookupKey_addIfAbsent_ne _ _ (by decide : ("Headshot %" : String) ≠ "Headshot")]
  exact lookupKey_setKey_self d _ _

theorem stepParse_score_derives (d : Data) (line s : String) (q : ℤ)
    (hl : parse_line line = some ("Score", .str s)) (hq : roundDiff s = some q)
    {d₁ : Data} (h : stepParse d line = .ok d₁) :
    lookupKey d₁ "Round Differential" = some (.num (q : ℚ)) := by
  unfold stepParse at h
  simp only [hl] at h
  rw [if_neg (by decide : ¬ ("Score" : String) = "")] at h
  rw [parse_special_key_score d s q hq] at h
  cases h
  rw [lookupKey_addIfAbsent_ne _ _ (by decide : ("Round Differential" : String) ≠ "Score")]
  exact lookupKey_setKey_self d _ _

theorem stepParse_headshot_error (d : Data) (line : String) (v : Value)
    (hl : parse_line line = some ("Headshot", v))
    (hbad : ∀ s, v = .str s → searchPct s.data = none) :
    ∃ e, stepParse d line = .error e := by
  unfold stepParse
  simp only [hl]
  rw [if_neg (by decide : ¬ ("Headshot" : String) = "")]
  cases v with
  | str s =>
    have hn := hbad s rfl
    exact ⟨"AttributeError", by simp [parse_special_key, hn]⟩
  | bool b => exact ⟨"TypeError", by simp [parse_special_key]⟩
  | num q => exact ⟨"TypeError", by simp [parse_special_key]⟩

theorem foldlM_stepParse_error (l : String)
    (hbad : ∀ acc : Data, ∃ e, stepParse acc l = .error e) :
    ∀ (lines : List String), l ∈ lines →
      ∀ acc : Data, ∃ e, List.foldlM stepParse acc lines = .error e := by
  intro lines
  induction lines with
  | nil => intro hmem; exact absurd hmem (List.not_mem_nil l)
  | cons x rest ih =>
    intro hmem acc
    rw [List.foldlM_cons]
    rcases List.mem_cons.mp hmem with heq | hmem'
    · subst heq
      obtain ⟨e, he⟩ := hbad acc
      exact ⟨e, by rw [he]; rfl⟩
    · cases hs : stepParse acc x with
      | error e => exact ⟨e, by rfl⟩
      | ok acc₁ =>
        obtain ⟨e, he⟩ := ih hmem' acc₁
        exact ⟨e, he⟩

theorem parse_error_of_step_error (lines : List String) (l : String) (hmem : l ∈ lines)
    (hbad : ∀ acc : Data, ∃ e, stepParse acc l = .error e) :
    ∃ e, parse lines = .error e := by
  obtain ⟨e, he⟩ := foldlM_stepParse_error l hbad lines hmem []
  refine ⟨e, ?_⟩
  unfold parse parseLines
  rw [he]
  rfl

end Parser

/-! ## Deriver lemmas -/

theorem isNumVal_eq {v : Value} (h : isNumVal v = true) : ∃ q : ℚ, v = .num q := by
  cases v with
  | num q => exact ⟨q, rfl⟩
  | bool b => simp [isNumVal] at h
  | str s => simp [isNumVal] at h

theorem lookup_isNum {d : Data} (hnum : ∀ p ∈ d, isNumVal p.2 = true) {k : String}
    {v : Value} (h : lookupKey d k = some v) : ∃ q : ℚ, v = .num q := by
  induction d with
  | nil => simp [lookupKey] at h
  | cons p d ih =>
    by_cases hp : p.1 = k
    · simp only [lookupKey, hp, if_true] at h
      cases h
      exact isNumVal_eq (hnum p (by simp))
    · simp only [lookupKey, hp, if_false] at h
      exact ih (fun p hp => hnum p (by simp [hp])) h

namespace Parser

theorem addLength_spec (d : Data) (hnum : ∀ p ∈ d, isNumVal p.2 = true) :
    ∃ d₁, addLength d = .ok d₁ ∧
      (∀ k, k ≠ "Length" → lookupKey d₁ k = lookupKey d k) ∧
      ((∃ s e : ℚ, lookupKey d "Start Time (UNIX)" = some (.num s) ∧
          lookupKey d "End Time (UNIX)" = some (.num e) ∧
          lookupKey d₁ "Length" = some (.num ((truncQ e - truncQ s : ℤ) : ℚ))) ∨
        ((lookupKey d "Start Time (UNIX)" = none ∨
          lookupKey d "End Time (UNIX)" = none) ∧
          lookupKey d₁ "Length" = lookupKey d "Length")) := by
  cases hS : lookupKey d "Start Time (UNIX)" with
  | none =>
    exact ⟨d, by simp [addLength, hS], fun k _ => rfl, Or.inr ⟨Or.inl rfl, rfl⟩⟩
  | some vs =>
    obtain ⟨s, rfl⟩ := lookup_isNum hnum hS
    cases hE : lookupKey d "End Time (UNIX)" with
    | none =>
      exact ⟨d, by simp [addLength, hS, hE], fun k _ => rfl, Or.inr ⟨Or.inr rfl, rfl⟩⟩
    | some ve =>
      obtain ⟨e, rfl⟩ := lookup_isNum hnum hE
      refine ⟨setKey d "Length" (.num ((truncQ e - truncQ s : ℤ) : ℚ)), ?_, ?_,
        Or.inl ⟨s, e, rfl, rfl, ?_⟩⟩
      · simp [addLength, hS, hE, pyIntOfValue]
      · intro k hk
        exact lookupKey_setKey_ne d _ hk
      · exact lookupKey_setKey_self d _ _

theorem addDamageRatio_spec (d₁ : Data)
    (hM : ∀ v, lookupKey d₁ "Damage Made" = some v → ∃ q : ℚ, v = .num q)
    (hR : ∀ v, lookupKey d₁ "Damage Received" = some v → ∃ q : ℚ, v = .num q) :
    ∃ d', addDamageRatio d₁ = .ok d' ∧
      (∀ k, k ≠ "Damage Ratio" → lookupKey d' k = lookupKey d₁ k) ∧
      ((∃ m r : ℚ, lookupKey d₁ "Damage Made" = some (.num m) ∧
          lookupKey d₁ "Damage Received" = some (.num r) ∧ r ≠ 0 ∧
          lookupKey d' "Damage Ratio" = some (.num (m / r))) ∨
        (((lookupKey d₁ "Damage Made" = none ∨ lookupKey d₁ "Damage Received" = none) ∨
          lookupKey d₁ "Damage Received" = some (.num 0)) ∧
          lookupKey d' "Damage Ratio" = lookupKey d₁ "Damage Ratio")) := by
  cases hm : lookupKey d₁ "Damage Made" with
  | none =>
    exact ⟨d₁, by simp [addDamageRatio, hm], fun k _ => rfl, Or.inr ⟨Or.inl (Or.inl rfl), rfl⟩⟩
  | some vm =>
    obtain ⟨m, rfl⟩ := hM _ hm
    cases hr : lookupKey d₁ "Damage Received" with
    | none =>
      exact ⟨d₁, by simp [addDamageRatio, hm, hr], fun k _ => rfl,
        Or.inr ⟨Or.inl (Or.inr rfl), rfl⟩⟩
    | some vr =>
      obtain ⟨r, rfl⟩ := hR _ hr
      by_cases hz : r = 0
      · subst hz
        exact ⟨d₁, by simp [addDamageRatio, hm, hr, valueNeZero], fun k _ => rfl,
          Or.inr ⟨Or.inr rfl, rfl⟩⟩
      · refine ⟨setKey d₁ "Damage Ratio" (.num (m / r)), ?_, ?_, Or.inl ⟨m, r, rfl, rfl, hz, ?_⟩⟩
        · simp [addDamageRatio, hm, hr, valueNeZero, hz, pyDiv, asNum]
        · intro k hk
          exact lookupKey_setKey_ne d₁ _ hk
        · exact lookupKey_setKey_self d₁ _ _

end Parser

/-! ## Scorer lemmas -/

theorem mem_of_mem_insertTier {p q : Tier} {l : List Tier} (h : p ∈ insertTier q l) :
    p = q ∨ p ∈ l := by
  induction l with
  | nil => simpa [insertTier] using h
  | cons x rest ih =>
    unfold insertTier at h
    by_cases hc : q.1 < x.1
    · rw [if_pos hc] at h
      rcases List.mem_cons.mp h with h1 | h2
      · exact Or.inl h1
      · exact Or.inr h2
    · rw [if_neg hc] at h
      rcases List.mem_cons.mp h with h1 | h2
      · exact Or.inr (by simp [h1])
      · rcases ih h2 with h3 | h4
        · exact Or.inl h3
        · exact Or.inr (by simp [h4])

theorem mem_of_mem_sortTiers {p : Tier} {l : List Tier} (h : p ∈ sortTiers l) : p ∈ l := by
  have H : ∀ (l acc : List Tier), p ∈ l.foldl (fun acc q => insertTier q acc) acc →
      p ∈ acc ∨ p ∈ l := by
    intro l
    induction l with
    | nil => intro acc h; exact Or.inl h
    | cons x rest ih =>
      intro acc h
      rcases ih (insertTier x acc) h with h1 | h2
      · rcases mem_of_mem_insertTier h1 with h3 | h4
        · exact Or.inr (by simp [h3])
        · exact Or.inl h4
      · exact Or.inr (by simp [h2])
  rcases H l [] h with h1 | h2
  · simp at h1
  · exact h2

theorem tierLoop_below_first (metric : String) (v : ℚ) (l : List Tier)
    (h : ∀ p ∈ l, ¬ v ≥ p.1) : tierLoop metric v true l = (0, []) := by
  cases l with
  | nil => rfl
  | cons p rest =>
    rw [show (p :: rest : List Tier) = (p.1, p.2) :: rest by simp]
    unfold tierLoop
    rw [if_neg (h p (by simp))]
    simp

theorem foldlM_scoreStep_congr (k : String) (v : Value) (d : Data) :
    ∀ (w : List (String × List Tier)) (acc : ℚ × List BreakdownEntry),
      (∀ mt ∈ w, mt.1 ≠ k) →
      List.foldlM (scoreStep ((k, v) :: d)) acc w = List.foldlM (scoreStep d) acc w := by
  intro w
  induction w with
  | nil => intro acc _; rfl
  | cons mt rest ih =>
    intro acc hw
    rw [List.foldlM_cons, List.foldlM_cons]
    have hne : mt.1 ≠ k := hw mt (by simp)
    have hstep : scoreStep ((k, v) :: d) acc mt = scoreStep d acc mt := by
      unfold scoreStep scoreMetric
      rw [show lookupKey ((k, v) :: d) mt.1 = lookupKey d mt.1 by
        simp [lookupKey, Ne.symm hne]]
    rw [hstep]
    cases hs : scoreStep d acc mt with
    | error e => rfl
    | ok a =>
      show List.foldlM (scoreStep ((k, v) :: d)) a rest = List.foldlM (scoreStep d) a rest
      exact ih a (fun mt' hmt' => hw mt' (by simp [hmt']))

/-! ## CSV-layer lemmas -/

theorem cell_any_eq_false_iff (d : CsvRow) (k : String) :
    (d.any (fun p => p.1 = k)) = false ↔ lookupCell d k = none := by
  induction d with
  | nil => simp [lookupCell]
  | cons p d ih => by_cases hp : p.1 = k <;> simp [lookupCell, hp, ih]

theorem lookupCell_append_of_none {d : CsvRow} {k : String} (d' : CsvRow)
    (h : lookupCell d k = none) : lookupCell (d ++ d') k = lookupCell d' k := by
  induction d with
  | nil => simp
  | cons p d ih =>
    by_cases hp : p.1 = k
    · simp [lookupCell, hp] at h
    · simp only [lookupCell, hp, if_false] at h
      simp [lookupCell, hp, ih h]

theorem lookupCell_append_of_some {d : CsvRow} {k v : String} (d' : CsvRow)
    (h : lookupCell d k = some v) : lookupCell (d ++ d') k = some v := by
  induction d with
  | nil => simp [lookupCell] at h
  | cons p d ih =>
    by_cases hp : p.1 = k
    · simp only [lookupCell, hp, if_true] at h
      simp [lookupCell, hp, h]
    · simp only [lookupCell, hp, if_false] at h
      simp [lookupCell, hp, ih h]

theorem cell_map_replace_self (d : CsvRow) (k v : String)
    (h : d.any (fun p => p.1 = k) = true) :
    lookupCell (d.map (fun p => if p.1 = k then (k, v) else p)) k = some v := by
  induction d with
  | nil => simp at h
  | cons p d ih =>
    by_cases hp : p.1 = k
    · simp [lookupCell, hp]
    · simp only [List.map_cons, hp, if_false]
      simp only [lookupCell, hp, if_false]
      apply ih
      simpa [hp] using h

theorem cell_map_replace_ne (d : CsvRow) (k k' v : String) (h : k' ≠ k) :
    lookupCell (d.map (fun p => if p.1 = k then (k, v) else p)) k' = lookupCell d k' := by
  induction d with
  | nil => simp [lookupCell]
  | cons p d ih =>
    by_cases hp : p.1 = k
    · simp [lookupCell, hp, Ne.symm h, ih]
    · by_cases hp' : p.1 = k' <;> simp [lookupCell, hp, hp', ih, h, Ne.symm h]

theorem lookupCell_setCell_self (d : CsvRow) (k v : String) :
    lookupCell (setCell d k v) k = some v := by
  unfold setCell
  by_cases h : d.any (fun p => p.1 = k)
  · simp [h, cell_map_replace_self d k v h]
  · have hn : lookupCell d k = none := (cell_any_eq_false_iff d k).mp (Bool.eq_false_iff.mpr h)
    simp [h, lookupCell_append_of_none _ hn, lookupCell]

theorem lookupCell_setCell_ne (d : CsvRow) {k k' : String} (v : String) (h : k' ≠ k) :
    lookupCell (setCell d k v) k' = lookupCell d k' := by
  unfold setCell
  by_cases hany : d.any (fun p => p.1 = k)
  · simp [hany, cell_map_replace_ne d k k' v h]
  · simp only [hany, Bool.false_eq_true, if_false]
    cases hl : lookupCell d k' with
    | none => simp [lookupCell_append_of_none _ hl, lookupCell, Ne.symm h]
    | some w => simp [lookupCell_append_of_some _ hl]

theorem mem_fst_setCell_self (d : CsvRow) (k v : String) :
    k ∈ (setCell d k v).map Prod.fst := by
  unfold setCell
  by_cases h : d.any (fun p => p.1 = k)
  · simp only [h, if_true]
    obtain ⟨p, hp, hpk⟩ : ∃ p ∈ d, p.1 = k := by simpa using h
    refine List.mem_map.mpr ⟨(k, v), List.mem_map.mpr ⟨p, hp, by simp [hpk]⟩, rfl⟩
  · simp only [h, Bool.false_eq_true, if_false, List.map_append]
    exact List.mem_append_right _ (by simp)

theorem zip_map_graph (l : List String) (g : String → String) :
    l.zip (l.map g) = l.map (fun x => (x, g x)) := by
  induction l with
  | nil => rfl
  | cons x r ih => simp [ih]

theorem lookupCell_graph (l : List String) (g : String → String) (k : String) (hk : k ∈ l) :
    lookupCell (l.map (fun x => (x, g x))) k = some (g k) := by
  induction l with
  | nil => cases hk
  | cons x r ih =>
    by_cases hx : x = k
    · subst hx
      simp [lookupCell]
    · rcases List.mem_cons.mp hk with h | h
      · exact absurd h.symm hx
      · simp only [List.map_cons, lookupCell, hx, if_false]
        exact ih h

theorem lookupCell_foldl_setCell (ps : List (String × String)) (k : String) :
    ∀ acc : CsvRow, lookupCell (ps.foldl (fun d p => setCell d p.1 p.2) acc) k =
      match lookupCell ps.reverse k with
      | some v => some v
      | none => lookupCell acc k := by
  induction ps with
  | nil => intro acc; simp [lookupCell]
  | cons p ps ih =>
    intro acc
    rw [List.foldl_cons, ih (setCell acc p.1 p.2), List.reverse_cons]
    cases hrev : lookupCell ps.reverse k with
    | some v => rw [lookupCell_append_of_some _ hrev]
    | none =>
      rw [lookupCell_append_of_none _ hrev]
      by_cases hk : p.1 = k
      · subst hk
        rw [lookupCell_setCell_self]
        simp [lookupCell]
      · rw [lookupCell_setCell_ne _ _ (fun h => hk h.symm)]
        simp [lookupCell, hk]

theorem lookupCell_readRow_graph (fields : List String) (g : String → String) (k : String)
    (hk : k ∈ fields) :
    lookupCell (readRow fields (fields.map g)) k = some (g k) := by
  unfold readRow
  rw [zip_map_graph, lookupCell_foldl_setCell]
  rw [show (fields.map (fun x => (x, g x))).reverse = fields.reverse.map (fun x => (x, g x))
    by rw [List.map_reverse]]
  rw [lookupCell_graph fields.reverse g k (by simpa using hk)]

theorem writeRows_ok (fields : List String) :
    ∀ rows : List CsvRow, (∀ r ∈ rows, ∀ p ∈ r, fields.contains p.1 = true) →
      writeRows fields rows =
        .ok (rows.map (fun r => fields.map (fun fd => (lookupCell r fd).getD ""))) := by
  intro rows
  induction rows with
  | nil => intro _; rfl
  | cons r rest ih =>
    intro h
    have hr : writeRow fields r = .ok (fields.map (fun fd => (lookupCell r fd).getD "")) := by
      unfold writeRow
      rw [if_pos (List.all_eq_true.mpr (fun p hp => h r (by simp) p hp))]
    unfold writeRows at ih ⊢
    rw [List.mapM_cons, hr, ih (fun r' hr' p hp => h r' (by simp [hr']) p hp)]
    rfl

theorem skipKeys_cons (fields : List String) (rows : List (List String))
    (hfld : fields.contains "Filename" = true) :
    skipKeys (fields :: rows) =
      .ok (rows.map (fun cells => lookupCell (readRow fields cells) "Filename")) := by
  have hmem : "Filename" ∈ fields := by simpa using hfld
  simp [skipKeys, hmem]

theorem map_some_contains (names : List String) (g : String) :
    (names.map some).contains (some g) = names.contains g := by
  induction names with
  | nil => rfl
  | cons x r ih => by_cases hx : x = g <;> simp [hx, ih]

theorem runMain_uniform_step (process : String → CsvRow) (fields : List String)
    (hf : ∀ f, (setCell (process f) "Filename" f).map Prod.fst = fields)
    (ins : List String) (hins : ins.Nodup) (file : CsvFile) (names : List String)
    (hinv : uniformFile fields file names) :
    ∃ file', runMain process ins file = .ok file' ∧
      uniformFile fields file'
        (names ++ ins.filter (fun g => hasMdExt g && !(names.contains g))) := by
  have hfld : fields.contains "Filename" = true := by
    have hmem := mem_fst_setCell_self (process "") "Filename" ""
    rw [hf ""] at hmem
    simpa using hmem
  have hFf : "Filename" ∈ fields := by simpa using hfld
  have hskip : skipKeys file = .ok (names.map some) := by
    rcases hinv with ⟨rfl, rfl⟩ | ⟨rows, rfl, -, -, hmap⟩
    · rfl
    · rw [skipKeys_cons _ _ hfld, hmap]
  have hfil : ins.filter (fun g => hasMdExt g && !((names.map some).contains (some g))) =
      ins.filter (fun g => hasMdExt g && !(names.contains g)) := by
    apply List.filter_congr
    intro g _
    rw [map_some_contains]
  have hread : ∀ f : String,
      lookupCell (readRow fields
        (fields.map (fun fd =>
          (lookupCell (setCell (process f) "Filename" f) fd).getD ""))) "Filename" = some f := by
    intro f
    rw [lookupCell_readRow_graph fields _ "Filename" hFf, lookupCell_setCell_self]
    rfl
  simp only [runMain, hskip, hfil]
  cases hnew : ins.filter (fun g => hasMdExt g && !(names.contains g)) with
  | nil =>
    simp only [List.map_nil, List.isEmpty_nil, if_true]
    exact ⟨file, rfl, by simpa [hnew] using hinv⟩
  | cons f₀ rest =>
    have hnodupNew : (ins.filter (fun g => hasMdExt g && !(names.contains g))).Nodup :=
      hins.filter _
    have hdisj : ∀ g ∈ ins.filter (fun g => hasMdExt g && !(names.contains g)), g ∉ names := by
      intro g hg
      have h1 := List.mem_filter.mp hg
      simp at h1
      exact h1.2.2
    have hkeys : ∀ r ∈ (f₀ :: rest).map (fun f => setCell (process f) "Filename" f),
        ∀ p ∈ r, fields.contains p.1 = true := by
      intro r hr p hp
      obtain ⟨f, -, rfl⟩ := List.mem_map.mp hr
      have : p.1 ∈ fields := by
        rw [← hf f]
        exact List.mem_map_of_mem Prod.fst hp
      simpa using this
    have hhead : (((f₀ :: rest).map (fun f => setCell (process f) "Filename" f)).headD []).map
        Prod.fst = fields := by
      simp [hf f₀]
    have hwr := writeRows_ok fields
      ((f₀ :: rest).map (fun f => setCell (process f) "Filename" f)) hkeys
    rw [hhead]
    have hres : (((f₀ :: rest)).map (fun f => setCell (process f) "Filename" f)).isEmpty
        = false := rfl
    rw [hres]
    simp only [Bool.false_eq_true, if_false, hwr]
    have hrowsRead : (((f₀ :: rest).map (fun f => setCell (process f) "Filename" f)).map
          (fun r => fields.map (fun fd => (lookupCell r fd).getD ""))).map
        (fun cells => lookupCell (readRow fields cells) "Filename") =
        (f₀ :: rest).map some := by
      rw [List.map_map, List.map_map]
      apply List.map_congr_left
      intro f _
      exact hread f
    rcases hinv with ⟨rfl, rfl⟩ | ⟨rows0, rfl, hne0, hnd0, hmap0⟩
    · simp only [List.map_nil, List.isEmpty_nil, if_true, List.nil_append]
      refine ⟨_, rfl, Or.inr ⟨_, rfl, by simp, ?_, ?_⟩⟩
      · exact hnew ▸ hnodupNew
      · exact hrowsRead
    · have hnamesNe : names ≠ [] := by
        intro hn
        rw [hn] at hmap0
        simp only [List.map_nil, List.map_eq_nil_iff] at hmap0
        exact hne0 hmap0
      have hprocNe : (names.map some).isEmpty = false := by
        cases hn : names with
        | nil => exact absurd hn hnamesNe
        | cons a l => rfl
      rw [hprocNe]
      simp only [Bool.false_eq_true, if_false, List.append_nil]
      refine ⟨_, rfl, Or.inr ⟨rows0 ++ _, by rw [List.cons_append], ?_, ?_, ?_⟩⟩
      · simp [hne0]
      · refine hnd0.append (hnew ▸ hnodupNew) ?_
        intro a ha hb
        exact hdisj a (by rw [hnew]; exact hb) ha
      · rw [List.map_append, hmap0, List.map_append, hrowsRead]

theorem multiRunCsv_uniform (process : String → CsvRow) (fields : List String)
    (hf : ∀ f, (setCell (process f) "Filename" f).map Prod.fst = fields) :
    ∀ (runs : List (List String)) (file : CsvFile) (names : List String),
      (∀ l ∈ runs, l.Nodup) → uniformFile fields file names →
      ∃ file', List.foldlM (fun fl ins => runMain process ins fl) file runs = .ok file' ∧
        uniformFile fields file'
          (runs.foldl
            (fun acc ins => acc ++ ins.filter (fun g => hasMdExt g && !(acc.contains g)))
            names) := by
  intro runs
  induction runs with
  | nil => intro file names _ hinv; exact ⟨file, rfl, hinv⟩
  | cons ins rest ih =>
    intro file names hnd hinv
    obtain ⟨file₁, hrun, hinv₁⟩ :=
      runMain_uniform_step process fields hf ins (hnd ins (by simp)) file names hinv
    obtain ⟨file', hfold, hinv'⟩ := ih file₁ _ (fun l hl => hnd l (by simp [hl])) hinv₁
    refine ⟨file', ?_, ?_⟩
    · rw [List.foldlM_cons, hrun]
      exact hfold
    · rw [List.foldl_cons]
      exact hinv'

/-! ## Claim theorems -/

/-- C1: for a metric with tiers `[(0,0),(10,5),(20,10)]`, `calculate_score`
awards an interpolated bonus of `2.5` for a record value of `5`, `7.5` for
`15`, the flat top-tier bonus `10` for `25`, and for `-1` it awards `0` and
appends no breakdown entry for that metric. -/
theorem interpolation_examples :
    calculate_score [("m", .num 5)] [("m", [(0, 0), (10, 5), (20, 10)])] =
      .ok (5 / 2, [.interp "m" 5 (5 / 2)]) ∧
    calculate_score [("m", .num 15)] [("m", [(0, 0), (10, 5), (20, 10)])] =
      .ok (15 / 2, [.interp "m" 15 (15 / 2)]) ∧
    calculate_score [("m", .num 25)] [("m", [(0, 0), (10, 5), (20, 10)])] =
      .ok (10, [.flat "m" 25 20 10]) ∧
    calculate_score [("m", .num (-1))] [("m", [(0, 0), (10, 5), (20, 10)])] =
      .ok (0, []) := by
  refine ⟨?_, ?_, ?_, ?_⟩ <;> decide

/-- C2, counterexample: with tiers `[(10,5),(10,8)]` and a record value equal
to the shared target `10`, `calculate_score` awards `8`, not the lower tier's
bonus `5`: the scan does not stop at the lower duplicate tier because the
value is not strictly below the (equal) next target, so it falls through to
the upper tier's flat bonus. -/
theorem equal_targets_claim_false :
    calculate_score [("m", .num 10)] [("m", [(10, 5), (10, 8)])] =
      .ok (8, [.flat "m" 10 10 8]) ∧ (8 : ℚ) ≠ 5 := by
  constructor <;> decide

/-- C2, amended: with tiers `[(10,5),(10,8)]` and a record value equal to the
shared target, `calculate_score` awards the upper (later) tier's bonus `8`,
and no division by zero occurs: `calculate_interpolated_bonus` returns the
lower bonus outright whenever the two bounds coincide, and in the score scan
it is only ever invoked with the value strictly between distinct bounds. -/
theorem equal_targets_upper_bonus :
    calculate_score [("m", .num 10)] [("m", [(10, 5), (10, 8)])] =
      .ok (8, [.flat "m" 10 10 8]) ∧
    ∀ v b1 b2 t : ℚ, calculate_interpolated_bonus v t t b1 b2 = b1 := by
  refine ⟨by decide, fun v b1 b2 t => ?_⟩
  simp [calculate_interpolated_bonus]

/-- C4, counterexample: a filename IS scored twice. Runs process `a.md` (a
`Kills` record) and then `b.md` (a `Deaths`/`Damage Ratio` record): `b.md`'s
five-cell row is appended under the 4-column header written for `a.md`, so the
next run's loader reads `b.md`'s `Log` cell (`"Deaths: 3"`) as its
`Filename`. That run's skip-set misses `b.md` even though its row is in the
table, `b.md` is processed again, and the final table holds its row twice. -/
theorem no_file_scored_twice_claim_false :
    multiRunCsv mismatchedProcess [["a.md"], ["b.md"], ["b.md"]] = .ok
      [["Kills", "Score", "Log", "Filename"],
        ["21", "8.0", "Kills: 21", "a.md"],
        ["3", "2.5", "0", "Deaths: 3", "b.md"],
        ["3", "2.5", "0", "Deaths: 3", "b.md"]] ∧
    ([["Kills", "Score", "Log", "Filename"],
        ["21", "8.0", "Kills: 21", "a.md"],
        ["3", "2.5", "0", "Deaths: 3", "b.md"],
        ["3", "2.5", "0", "Deaths: 3", "b.md"]].count
      ["3", "2.5", "0", "Deaths: 3", "b.md"]) = 2 ∧
    skipKeys [["Kills", "Score", "Log", "Filename"],
        ["21", "8.0", "Kills: 21", "a.md"],
        ["3", "2.5", "0", "Deaths: 3", "b.md"]] =
      .ok [some "a.md", some "Deaths: 3"] ∧
    some "b.md" ∉ [some "a.md", some "Deaths: 3"] := by
  refine ⟨by decide, by decide, by decide, by decide⟩

/-- C4, amended: provided every processed row carries exactly the field set
of the output table's header — the fieldnames of the first batch, as when
all records share one schema — no input filename is ever scored twice: after
any sequence of runs over the same output table the `Filename` column, as
the next run's loader reads it, lists each processed file exactly once
(duplicate-free), and a file whose name is in a run's skip-set is never
among that run's processed files. Without the uniform-schema proviso a
misaligned append leaks another column into `Filename` and a file is
rescored (see the counterexample). -/
theorem no_file_scored_twice_uniform (process : String → CsvRow) (fields : List String)
    (hf : ∀ f, (setCell (process f) "Filename" f).map Prod.fst = fields)
    (runs : List (List String)) (hnd : ∀ l ∈ runs, l.Nodup) :
    (∃ file, multiRunCsv process runs = .ok file ∧
      skipKeys file = .ok ((processedNames runs).map some) ∧
      (processedNames runs).Nodup) ∧
    (∀ (ins : List String) (processed : List (Option String)) (f : String),
      some f ∈ processed →
      f ∉ ins.filter (fun g => hasMdExt g && !(processed.contains (some g)))) := by
  constructor
  · obtain ⟨file, hm, hinv⟩ := multiRunCsv_uniform process fields hf runs [] []
      hnd (Or.inl ⟨rfl, rfl⟩)
    have hfld : fields.contains "Filename" = true := by
      have hmem := mem_fst_setCell_self (process "") "Filename" ""
      rw [hf ""] at hmem
      simpa using hmem
    have hpn : processedNames runs =
        runs.foldl
          (fun acc ins => acc ++ ins.filter (fun g => hasMdExt g && !(acc.contains g))) [] :=
      rfl
    refine ⟨file, hm, ?_, ?_⟩
    · rcases hinv with ⟨rfl, hn⟩ | ⟨rows, rfl, -, -, hmap⟩
      · rw [hpn, hn]
        rfl
      · rw [skipKeys_cons _ _ hfld, hmap, hpn]
    · rcases hinv with ⟨-, hn⟩ | ⟨rows, -, -, hnd', -⟩
      · rw [hpn, hn]
        exact List.nodup_nil
      · rw [hpn]
        exact hnd'
  · intro ins processed f hfp hmem
    have h1 := List.mem_filter.mp hmem
    simp at h1
    exact h1.2.2 hfp

/-- C4 witness: two runs over records that all share the schema
`[Kills, Filename]`; the read-back `Filename` column is exactly
`[a.md, b.md]`, each processed file once. -/
theorem no_file_scored_twice_uniform_witness :
    (∃ file, multiRunCsv (fun _ => [("Kills", "21")]) [["a.md"], ["b.md"]] = .ok file ∧
      skipKeys file = .ok ((processedNames [["a.md"], ["b.md"]]).map some) ∧
      (processedNames [["a.md"], ["b.md"]]).Nodup) ∧
    (∀ (ins : List String) (processed : List (Option String)) (f : String),
      some f ∈ processed →
      f ∉ ins.filter (fun g => hasMdExt g && !(processed.contains (some g)))) :=
  no_file_scored_twice_uniform (fun _ => [("Kills", "21")]) ["Kills", "Filename"]
    (fun _ => rfl) [["a.md"], ["b.md"]] (by decide)

/-- C9: a run only appends to the output file — the previous contents stay a
prefix, byte for byte; when there are new rows, a header line is written
before them exactly when the skip-set was empty, and never when it is
non-empty; with no new rows the file is untouched. The skip-set is empty
exactly when the output table had no rows (a missing output file reads as no
rows). -/
theorem append_only_and_header (fileLines processedFiles : List String)
    (headerLine : String) (rowLines : List String) :
    fileLines <+: appendToCsv fileLines processedFiles headerLine rowLines ∧
    (rowLines ≠ [] → processedFiles = [] →
      appendToCsv fileLines processedFiles headerLine rowLines =
        fileLines ++ headerLine :: rowLines) ∧
    (rowLines ≠ [] → processedFiles ≠ [] →
      appendToCsv fileLines processedFiles headerLine rowLines = fileLines ++ rowLines) ∧
    (rowLines = [] → appendToCsv fileLines processedFiles headerLine rowLines = fileLines) ∧
    (∀ t : OutTable, skipSet t = [] ↔ t = []) := by
  refine ⟨?_, ?_, ?_, ?_, ?_⟩
  · unfold appendToCsv
    by_cases hr : rowLines.isEmpty
    · simp [hr]
    · simp only [hr, if_false]
      by_cases hp : processedFiles.isEmpty <;>
        simp [hp, List.prefix_append]
  · intro hr hp
    simp [appendToCsv, hr, hp]
  · intro hr hp
    simp [appendToCsv, hr, hp]
  · intro hr
    simp [appendToCsv, hr]
  · intro t
    simp [skipSet]

/-- C9 witness: a concrete first run (empty skip-set, header written) and a
concrete later run (non-empty skip-set, rows appended after the old lines). -/
theorem append_only_and_header_witness :
    (["h", "r1"] : List String) <+: appendToCsv ["h", "r1"] ["a.md"] "h" ["r2"] ∧
    appendToCsv [] [] "h" ["r1"] = ["h", "r1"] ∧
    appendToCsv ["h", "r1"] ["a.md"] "h" ["r2"] = ["h", "r1", "r2"] := by
  refine ⟨(append_only_and_header ["h", "r1"] ["a.md"] "h" ["r2"]).1, ?_, ?_⟩
  · exact (append_only_and_header [] [] "h" ["r1"]).2.1 (by decide) rfl
  · exact (append_only_and_header ["h", "r1"] ["a.md"] "h" ["r2"]).2.2.1 (by decide) (by decide)

/-- C5, counterexample: derived keys ARE overwritten by a later occurrence of
the raw key. After `Score: 13-7`, `Round Differential` is `6`; a second line
`Score: 5-5` re-runs the derivation and overwrites it with `0` (while the raw
`Score` binding itself is kept at its first value). -/
theorem derived_key_overwritten :
    Parser.parseLines ["Score: 13-7"] =
      .ok [("Round Differential", .num 6), ("Score", .str "13-7")] ∧
    Parser.parse ["Score: 13-7", "Score: 5-5"] =
      .ok [("Round Differential", .num 0), ("Score", .str "13-7")] ∧
    Value.num (0 : ℚ) ≠ Value.num 6 := by
  refine ⟨by decide, by decide, by decide⟩

/-- C5, amended: the raw special keys `Headshot` and `Score` are stored under
their own names with normal value typing (first occurrence wins, like every
raw key), in addition to the derived keys; but a derived key, once set, is
overwritten by every later occurrence of the raw key, which re-runs the
derivation (only literal lines naming the derived key leave it unchanged). -/
theorem special_keys_storage (lines : List String) {d : Data}
    (hp : Parser.parse lines = .ok d) :
    (lookupKey d "Headshot" = Parser.firstVal "Headshot" lines) ∧
    (lookupKey d "Score" = Parser.firstVal "Score" lines) ∧
    (∀ (dAcc : Data) (line s : String) (q : ℤ),
      Parser.parse_line line = some ("Score", .str s) → Parser.roundDiff s = some q →
      ∀ d₁, Parser.stepParse dAcc line = .ok d₁ →
        lookupKey d₁ "Round Differential" = some (.num (q : ℚ))) ∧
    (∀ (dAcc : Data) (line s : String) (q : ℚ),
      Parser.parse_line line = some ("Headshot", .str s) →
      Parser.searchPct s.data = some q →
      ∀ d₁, Parser.stepParse dAcc line = .ok d₁ →
        lookupKey d₁ "Headshot %" = some (.num q)) := by
  refine ⟨?_, ?_, ?_, ?_⟩
  · exact Parser.parse_lookup lines "Headshot" (by decide) (by decide) (by decide) (by decide) hp
  · exact Parser.parse_lookup lines "Score" (by decide) (by decide) (by decide) (by decide) hp
  · intro dAcc line s q hl hq d₁ h
    exact Parser.stepParse_score_derives dAcc line s q hl hq h
  · intro dAcc line s q hl hq d₁ h
    exact Parser.stepParse_headshot_derives dAcc line s q hl hq h

/-- C5 witness: a concrete file where both special keys appear; the raw keys
are stored under their own names, and each occurrence derives its key. -/
theorem special_keys_storage_witness :
    lookupKey [("Headshot %", Value.num 10), ("Headshot", Value.str "a (10%)"),
        ("Round Differential", Value.num 6), ("Score", Value.str "13-7")] "Headshot" =
      Parser.firstVal "Headshot" ["Headshot: a (10%)", "Score: 13-7"] ∧
    lookupKey [("Headshot %", Value.num 10), ("Headshot", Value.str "a (10%)"),
        ("Round Differential", Value.num 6), ("Score", Value.str "13-7")] "Score" =
      Parser.firstVal "Score" ["Headshot: a (10%)", "Score: 13-7"] :=
  ⟨(special_keys_storage ["Headshot: a (10%)", "Score: 13-7"] (by decide)).1,
   (special_keys_storage ["Headshot: a (10%)", "Score: 13-7"] (by decide)).2.1⟩

/-- C6: a file containing a `Headshot` line whose value has no parenthesized
percentage pattern fails to parse with a propagated error (`re.search`
returning `None`, or a non-string operand), producing no record at all; and a
`Headshot` line whose value does contain the pattern stores `Headshot %` as
that percentage. -/
theorem headshot_error_and_derivation :
    (∀ (lines : List String) (l : String) (v : Value), l ∈ lines →
      Parser.parse_line l = some ("Headshot", v) →
      (∀ s, v = .str s → Parser.searchPct s.data = none) →
      ∃ e, Parser.parse lines = .error e) ∧
    (∀ (d : Data) (line s : String) (q : ℚ),
      Parser.parse_line line = some ("Headshot", .str s) →
      Parser.searchPct s.data = some q →
      ∀ d₁, Parser.stepParse d line = .ok d₁ →
        lookupKey d₁ "Headshot %" = some (.num q)) := by
  constructor
  · intro lines l v hmem hl hbad
    exact Parser.parse_error_of_step_error lines l hmem
      (fun acc => Parser.stepParse_headshot_error acc l v hl hbad)
  · intro d line s q hl hq d₁ h
    exact Parser.stepParse_headshot_derives d line s q hl hq h

/-- C6 witness: `Headshot: huh` aborts the whole parse; `Headshot: 12 (37.5%)`
derives `Headshot %` = `37.5`. -/
theorem headshot_error_and_derivation_witness :
    (∃ e, Parser.parse ["Headshot: huh"] = .error e) ∧
    lookupKey [("Headshot %", Value.num (75 / 2)), ("Headshot", Value.str "12 (37.5%)")]
      "Headshot %" = some (.num (75 / 2)) :=
  ⟨headshot_error_and_derivation.1 ["Headshot: huh"] "Headshot: huh" (.str "huh")
      (by decide) (by decide) (fun s hs => by cases hs; decide),
   headshot_error_and_derivation.2 [] "Headshot: 12 (37.5%)" "12 (37.5%)" (75 / 2)
      (by decide) (by decide) _ (by decide)⟩

/-- C8: for every line matching `<key>: <value>`, the stored value is the
typed stripped raw value: `true`/`false` case-insensitively becomes the
boolean, else a float-parsable value becomes that number, else the string is
kept; a matching line with a fresh truthy key stores exactly that typed
value, and a non-matching line contributes nothing and raises no error. -/
theorem value_typing :
    (∀ s : String, lowerStr s = "true" → Parser.parse_value s = .bool true) ∧
    (∀ s : String, lowerStr s = "false" → Parser.parse_value s = .bool false) ∧
    (∀ (s : String) (q : ℚ), lowerStr s ≠ "true" → lowerStr s ≠ "false" →
      pyFloat s = some q → Parser.parse_value s = .num q) ∧
    (∀ s : String, lowerStr s ≠ "true" → lowerStr s ≠ "false" →
      pyFloat s = none → Parser.parse_value s = .str s) ∧
    (∀ (line k : String) (v : Value), Parser.parse_line line = some (k, v) →
      ∃ rk rv, Parser.matchKV line = some (rk, rv) ∧ k = pyStrip rk ∧
        v = Parser.parse_value (pyStrip rv)) ∧
    (∀ (d : Data) (line k : String) (v : Value), Parser.parse_line line = some (k, v) →
      k ≠ "" → lookupKey d k = none → ∀ d₁, Parser.stepParse d line = .ok d₁ →
        lookupKey d₁ k = some v) ∧
    (∀ (d : Data) (line : String), Parser.parse_line line = none →
      Parser.stepParse d line = .ok d) := by
  refine ⟨?_, ?_, ?_, ?_, ?_, ?_, ?_⟩
  · intro s h; simp [Parser.parse_value, h]
  · intro s h; simp [Parser.parse_value, h]
  · intro s q h1 h2 h3; simp [Parser.parse_value, h1, h2, h3]
  · intro s h1 h2 h3; simp [Parser.parse_value, h1, h2, h3]
  · intro line k v hl
    unfold Parser.parse_line at hl
    cases hm : Parser.matchKV line with
    | none => rw [hm] at hl; cases hl
    | some p =>
      rw [hm] at hl
      have hl' : (pyStrip p.1, Parser.parse_value (pyStrip p.2)) = (k, v) := by
        simpa using hl
      exact ⟨p.1, p.2, rfl, (congrArg Prod.fst hl').symm, (congrArg Prod.snd hl').symm⟩
  · intro d line k v hl hk habs d₁ h
    exact Parser.stepParse_stores_fresh d line k v hl hk habs h
  · intro d line h
    exact Parser.stepParse_skip d line h

/-- C8 witness: concrete lines of each kind. -/
theorem value_typing_witness :
    Parser.parse_value "True" = .bool true ∧
    Parser.parse_value "faLSe" = .bool false ∧
    Parser.parse_value "2.5" = .num (5 / 2) ∧
    Parser.parse_value "13-7" = .str "13-7" ∧
    lookupKey [("Kills", Value.num 21)] "Kills" = some (.num 21) ∧
    Parser.stepParse [] "no colon in this line" = .ok [] :=
  ⟨value_typing.1 "True" (by decide),
   value_typing.2.1 "faLSe" (by decide),
   value_typing.2.2.1 "2.5" (5 / 2) (by decide) (by decide) (by decide),
   value_typing.2.2.2.1 "13-7" (by decide) (by decide) (by decide),
   value_typing.2.2.2.2.2.1 [] "Kills: 21" "Kills" (.num 21) (by decide) (by decide)
     (by decide) [("Kills", Value.num 21)] (by decide),
   value_typing.2.2.2.2.2.2 [] "no colon in this line" (by decide)⟩

/-- C10, counterexample: the binding of a key is NOT always the typed value of
the first matching line with that key. A literal line `Headshot %: 5` binds
`Headshot %` to `5`, but a later `Headshot: a (10%)` line (a different key)
overwrites the binding with the re-derived `10`. -/
theorem first_binding_claim_false :
    Parser.parse_line "Headshot %: 5" = some ("Headshot %", .num 5) ∧
    Parser.parse ["Headshot %: 5", "Headshot: a (10%)"] =
      .ok [("Headshot %", .num 10), ("Headshot", .str "a (10%)")] ∧
    Value.num (10 : ℚ) ≠ Value.num 5 := by
  refine ⟨by decide, by decide, by decide⟩

/-- C10, amended: for every key other than the derived keys (`Headshot %`,
`Round Differential`, `Length`, `Damage Ratio`), the mapping produced by the
parser binds that key to the typed value of the first line matching
`<key>: <value>` with that (truthy) key, and later lines never change it; the
derived keys can instead be rewritten by the derivation passes. -/
theorem first_binding_non_derived (lines : List String) (k : String) {d : Data}
    (h1 : k ≠ "Headshot %") (h2 : k ≠ "Round Differential")
    (h3 : k ≠ "Length") (h4 : k ≠ "Damage Ratio")
    (hp : Parser.parse lines = .ok d) :
    lookupKey d k = Parser.firstVal k lines :=
  Parser.parse_lookup lines k h1 h2 h3 h4 hp

/-- C10 witness: a key bound by its first line keeps that value past a second
line with the same key. -/
theorem first_binding_non_derived_witness :
    lookupKey [("Kills", Value.num 21)] "Kills" =
      Parser.firstVal "Kills" ["Kills: 21", "Kills: 99"] :=
  first_binding_non_derived ["Kills: 21", "Kills: 99"] "Kills"
    (by decide) (by decide) (by decide) (by decide) (by decide)

/-- C7, counterexample: with both time fields present but `End Time (UNIX)`
bound to a (non-numeric) string — a record the parser itself produces from
the file below — the deriver raises `ValueError` from `int(...)` instead of
adding `Length`, and the whole parse fails, so `Length` is not added even
though both prerequisite fields are present. -/
theorem length_requires_numeric :
    Parser.parseLines ["Start Time (UNIX): 1000", "End Time (UNIX): soon"] =
      .ok [("Start Time (UNIX)", .num 1000), ("End Time (UNIX)", .str "soon")] ∧
    Parser.parse ["Start Time (UNIX): 1000", "End Time (UNIX): soon"] =
      .error "ValueError" := by
  refine ⟨by decide, by decide⟩

/-- C7, amended: on a record whose values are all numbers (and that does not
already bind the derived keys), the deriver succeeds with no error, adds
`Length` = `int(end) - int(start)` exactly when both time fields are present,
and adds `Damage Ratio` = made / received exactly when both damage fields are
present and `Damage Received` is non-zero; a present non-numeric string
prerequisite instead raises an error (see the counterexample). -/
theorem derived_metrics_numeric (d : Data)
    (hnum : ∀ p ∈ d, isNumVal p.2 = true)
    (hL : lookupKey d "Length" = none) (hR0 : lookupKey d "Damage Ratio" = none) :
    ∃ d', Parser.calculate_additional_metrics d = .ok d' ∧
      (∀ s e : ℚ, lookupKey d "Start Time (UNIX)" = some (.num s) →
        lookupKey d "End Time (UNIX)" = some (.num e) →
        lookupKey d' "Length" = some (.num ((truncQ e - truncQ s : ℤ) : ℚ))) ∧
      ((lookupKey d "Start Time (UNIX)" = none ∨ lookupKey d "End Time (UNIX)" = none) →
        lookupKey d' "Length" = none) ∧
      (∀ m r : ℚ, lookupKey d "Damage Made" = some (.num m) →
        lookupKey d "Damage Received" = some (.num r) → r ≠ 0 →
        lookupKey d' "Damage Ratio" = some (.num (m / r))) ∧
      (∀ m r : ℚ, lookupKey d "Damage Made" = some (.num m) →
        lookupKey d "Damage Received" = some (.num r) → r = 0 →
        lookupKey d' "Damage Ratio" = none) ∧
      ((lookupKey d "Damage Made" = none ∨ lookupKey d "Damage Received" = none) →
        lookupKey d' "Damage Ratio" = none) := by
  obtain ⟨d₁, hok1, hpres1, hcase1⟩ := Parser.addLength_spec d hnum
  have hDM : lookupKey d₁ "Damage Made" = lookupKey d "Damage Made" :=
    hpres1 _ (by decide)
  have hDR : lookupKey d₁ "Damage Received" = lookupKey d "Damage Received" :=
    hpres1 _ (by decide)
  obtain ⟨d', hok2, hpres2, hcase2⟩ := Parser.addDamageRatio_spec d₁
    (fun v hv => lookup_isNum hnum (hDM ▸ hv))
    (fun v hv => lookup_isNum hnum (hDR ▸ hv))
  have hLen' : lookupKey d' "Length" = lookupKey d₁ "Length" := hpres2 _ (by decide)
  have hRat1 : lookupKey d₁ "Damage Ratio" = lookupKey d "Damage Ratio" :=
    hpres1 _ (by decide)
  refine ⟨d', ?_, ?_, ?_, ?_, ?_, ?_⟩
  · unfold Parser.calculate_additional_metrics
    rw [hok1]
    exact hok2
  · intro s e hs he
    rcases hcase1 with ⟨s', e', hs', he', hv⟩ | ⟨habs, -⟩
    · rw [hs] at hs'
      rw [he] at he'
      cases hs'
      cases he'
      rw [hLen', hv]
    · rcases habs with h | h
      · rw [hs] at h; cases h
      · rw [he] at h; cases h
  · intro habs
    rcases hcase1 with ⟨s', e', hs', he', -⟩ | ⟨-, hv⟩
    · rcases habs with h | h
      · rw [hs'] at h; cases h
      · rw [he'] at h; cases h
    · rw [hLen', hv, hL]
  · intro m r hm hr hz
    rcases hcase2 with ⟨m', r', hm', hr', -, hv⟩ | ⟨habs, -⟩
    · rw [hDM, hm] at hm'
      rw [hDR, hr] at hr'
      cases hm'
      cases hr'
      exact hv
    · rcases habs with (h | h) | h
      · rw [hDM, hm] at h; cases h
      · rw [hDR, hr] at h; cases h
      · rw [hDR, hr] at h
        simp only [Option.some.injEq, Value.num.injEq] at h
        exact absurd h hz
  · intro m r hm hr hz
    subst hz
    rcases hcase2 with ⟨m', r', hm', hr', hz', -⟩ | ⟨-, hv⟩
    · rw [hDR, hr] at hr'
      cases hr'
      exact absurd rfl hz'
    · rw [hv, hRat1, hR0]
  · intro habs
    rcases hcase2 with ⟨m', r', hm', hr', -, -⟩ | ⟨-, hv⟩
    · rcases habs with h | h
      · rw [hDM, h] at hm'; cases hm'
      · rw [hDR, h] at hr'; cases hr'
    · rw [hv, hRat1, hR0]

/-- C7 witness: the spec's own test record — `Length` = 500 is added, and with
`Damage Received` = 0 no `Damage Ratio` key appears and no error is raised. -/
theorem derived_metrics_numeric_witness :
    ∃ d', Parser.calculate_additional_metrics
        [("Start Time (UNIX)", Value.num 1000), ("End Time (UNIX)", Value.num 1500),
          ("Damage Made", Value.num 200), ("Damage Received", Value.num 0)] = .ok d' ∧
      lookupKey d' "Length" = some (.num 500) ∧
      lookupKey d' "Damage Ratio" = none := by
  obtain ⟨d', hok, hlen, -, -, hzero, -⟩ := derived_metrics_numeric
    [("Start Time (UNIX)", Value.num 1000), ("End Time (UNIX)", Value.num 1500),
      ("Damage Made", Value.num 200), ("Damage Received", Value.num 0)]
    (by decide) (by decide) (by decide)
  refine ⟨d', hok, ?_, hzero 200 0 (by decide) (by decide) rfl⟩
  have := hlen 1000 1500 (by decide) (by decide)
  rw [this]
  decide

/-- C3: a metric listed in the weight table but absent from the record is
scored as the value `0` (`data.get(metric, 0)`); when all its targets are
positive that value is below the first sorted tier, so the metric contributes
no bonus and no breakdown entry; and a field present in the record but absent
from the weight table leaves the score and breakdown unchanged, whatever its
value — the loop is driven by the weight table. -/
theorem absent_and_unknown_metrics (d : Data) (weights : List (String × List Tier))
    (m : String) (tiers : List Tier) (k : String) (v : Value)
    (hm : (m, tiers) ∈ weights) (habs : lookupKey d m = none)
    (hpos : ∀ p ∈ tiers, 0 < p.1) (hk : ∀ mt ∈ weights, mt.1 ≠ k) :
    scoreMetric d m tiers = .ok (tierLoop m 0 true (sortTiers tiers)) ∧
    scoreMetric d m tiers = .ok (0, []) ∧
    calculate_score ((k, v) :: d) weights = calculate_score d weights := by
  have h1 : scoreMetric d m tiers = .ok (tierLoop m 0 true (sortTiers tiers)) := by
    simp [scoreMetric, habs, Parser.pyFloatOfValue]
  refine ⟨h1, ?_, ?_⟩
  · rw [h1, tierLoop_below_first]
    intro p hp
    have hp0 := hpos p (mem_of_mem_sortTiers hp)
    exact fun hge => absurd hp0 (not_lt.mpr hge)
  · unfold calculate_score
    rw [foldlM_scoreStep_congr k v d weights (0, []) hk]

/-- C3 witness: a concrete record and weight table exercising both halves. -/
theorem absent_and_unknown_metrics_witness :
    scoreMetric [("x", Value.num 3)] "m" [(1, 2)] =
      .ok (tierLoop "m" 0 true (sortTiers [(1, 2)])) ∧
    scoreMetric [("x", Value.num 3)] "m" [(1, 2)] = .ok (0, []) ∧
    calculate_score [("y", Value.num 99), ("x", Value.num 3)] [("m", [(1, 2)])] =
      calculate_score [("x", Value.num 3)] [("m", [(1, 2)])] :=
  absent_and_unknown_metrics [("x", Value.num 3)] [("m", [(1, 2)])] "m" [(1, 2)] "y"
    (Value.num 99) (by decide) (by decide) (by decide) (by decide)

end ValorantAnalyzer

